import Mathlib

/-!
Verification development for the clause-segmentation and classification core
of the lma-lense-server repository (src/parser.ts, `extractClausesRegex` and
`detectClauseType`).  Text is modelled as `List Char`; the seven JavaScript
regular-expression matchers are modelled as deterministic scanners that
reproduce `String.prototype.matchAll` semantics (leftmost match at or after
the current position, resumption at the match end) for each pattern.
The TypeScript field `section` is rendered as `sectionLabel` because
`section` is a Lean keyword.
-/

abbrev Str := List Char

def str (s : String) : Str := s.data

/-- JS `\s` (ASCII fragment; all inputs considered here are ASCII). -/
def isWsC (c : Char) : Bool :=
  c == ' ' || c == '\t' || c == '\n' || c == '\r' || c == '\x0b' || c == '\x0c'

def isDigitC (c : Char) : Bool := '0' ≤ c && c ≤ '9'

def isLowerC (c : Char) : Bool := 'a' ≤ c && c ≤ 'z'

def isUpperC (c : Char) : Bool := 'A' ≤ c && c ≤ 'Z'

def isAlphaC (c : Char) : Bool := isLowerC c || isUpperC c

def toLowerStr (s : Str) : Str := s.map Char.toLower

/-- JS `String.prototype.trim`. -/
def trimStr (s : Str) : Str := ((s.dropWhile isWsC).reverse.dropWhile isWsC).reverse

/-- `strStarts pat s` : `pat` is an initial segment of `s`. -/
def strStarts : Str → Str → Bool
  | [], _ => true
  | _ :: _, [] => false
  | a :: as, b :: bs => a == b && strStarts as bs

/-- JS `String.prototype.includes`: `containsStr hay pat`. -/
def containsStr (hay pat : Str) : Bool :=
  match hay with
  | [] => strStarts pat []
  | _ :: t => strStarts pat hay || containsStr t pat

/-- Some run of at least `n` consecutive characters satisfying `p` occurs in `s`. -/
def hasRun (p : Char → Bool) (n : Nat) (s : Str) : Bool :=
  s.tails.any (fun t => n ≤ (t.takeWhile p).length)

/-- The regex `\.{2,}\s*\d+$` on a header: at least two dots, optional
whitespace, then digits running to the end of the string. -/
def endsTocPage (h : Str) : Bool :=
  let r := h.reverse
  let ds := r.takeWhile isDigitC
  let r2 := (r.drop ds.length).dropWhile isWsC
  !ds.isEmpty && 2 ≤ (r2.takeWhile (· == '.')).length

/-- parser.ts line 77: `/\.{3,}|\.{2,}\s*\d+$|[.-]{5,}/.test(header)`. -/
def tocTest (h : Str) : Bool :=
  hasRun (· == '.') 3 h || endsTocPage h || hasRun (fun c => c == '.' || c == '-') 5 h

/-- The `type` tag of a raw match (parser.ts `Match.type`). -/
inductive MKind where
  | clause | article | schedule | part | decimal | letter | roman
deriving DecidableEq, Repr

/-- parser.ts `Match`: one raw pattern match. -/
structure PMatch where
  sectionLabel : Str
  header : Str
  startIndex : Nat
  level : Nat
  mkind : MKind
deriving DecidableEq, Repr

/-- Matches `\s+([^\n]+)` (`needNl = false`) or `\s+([^\n]+?)(?=\n)`
(`needNl = true`) at the start of `s`, returning the raw header group and the
number of characters consumed.  `k+1` counts the whitespace characters tried,
descending from the maximal run as the backtracking engine does. -/
def wsProbe (needNl : Bool) (s : Str) : Nat → Option (Str × Nat)
  | 0 => none
  | k + 1 =>
    match s.drop (k + 1) with
    | [] => wsProbe needNl s k
    | c :: r =>
      if c != '\n' && (!needNl || (c :: r).any (· == '\n')) then
        let hdr := (c :: r).takeWhile (· != '\n')
        some (hdr, (k + 1) + hdr.length)
      else wsProbe needNl s k

def tailHdr (needNl : Bool) (s : Str) : Option (Str × Nat) :=
  wsProbe needNl s (s.takeWhile isWsC).length

/-- The `(?:\.\d+)*` groups of the decimal pattern (fuel-driven; each step
consumes at least two characters, so `s.length` fuel always suffices). -/
def dotGroupsGo : Nat → Str → Str
  | 0, _ => []
  | _ + 1, [] => []
  | fuel + 1, c :: rest =>
    if c == '.' then
      let ds := rest.takeWhile isDigitC
      if ds.isEmpty then []
      else '.' :: (ds ++ dotGroupsGo fuel (rest.drop ds.length))
    else []

def dotGroups (s : Str) : Str := dotGroupsGo s.length s

/-- Pattern 2, `/\n(\d+(?:\.\d+)*)\.?\s+([^\n]+?)(?=\n)/g`, tried just after a
newline at document index `i`; returns `(consumed, emitted?)`.  TOC-artifact
headers are consumed but not emitted (parser.ts lines 77-79). -/
def tryP2 (i : Nat) (s : Str) : Option (Nat × Option PMatch) :=
  let ds := s.takeWhile isDigitC
  if ds.isEmpty then none
  else
    let gs := dotGroups (s.drop ds.length)
    let sec := ds ++ gs
    let afterSec := s.drop (ds.length + gs.length)
    let dotN := if afterSec.head? == some '.' then 1 else 0
    match tailHdr true (afterSec.drop dotN) with
    | none => none
    | some (hdr, n) =>
      let hdrT := trimStr hdr
      let consumed := ds.length + gs.length + dotN + n
      if tocTest hdrT then some (consumed, none)
      else some (consumed, some ⟨sec, hdrT, i, (sec.count '.') + 1, MKind.decimal⟩)

/-- Keyword head of pattern 1 (case-insensitive), with its length. -/
def p1Keyword (s : Str) : Option Nat :=
  let low := toLowerStr (s.take 8)
  if strStarts (str "clause") low then some 6
  else if strStarts (str "article") low then some 7
  else if strStarts (str "schedule") low then some 8
  else if strStarts (str "appendix") low then some 8
  else if strStarts (str "part") low then some 4
  else none

def isRomanAnyC (c : Char) : Bool :=
  c == 'I' || c == 'V' || c == 'X' || c == 'i' || c == 'v' || c == 'x'

def isSepC (c : Char) : Bool := c == ':' || c == '\n' || c == '–' || c == '-'

/-- Candidate separator position for `\s*[:\n–-]\s*([^\n]*)` of pattern 1. -/
def sepAt (s : Str) (k : Nat) : Option (Str × Nat) :=
  match s.drop k with
  | c :: r =>
    if isSepC c then
      let ws2 := r.takeWhile isWsC
      let hdr := (r.drop ws2.length).takeWhile (· != '\n')
      some (hdr, k + 1 + ws2.length + hdr.length)
    else none
  | [] => none

/-- Tries separator positions from the longest `\s*` run downwards. -/
def sepProbe (s : Str) : Nat → Option (Str × Nat)
  | 0 => sepAt s 0
  | k + 1 => (sepAt s (k + 1)).orElse (fun _ => sepProbe s k)

/-- Pattern 1,
`/\n((?:CLAUSE|ARTICLE|SCHEDULE|APPENDIX|PART)\s+(?:[IVXivx]+|\d+|[A-Za-z]))\s*[:\n–-]\s*([^\n]*)/gi`. -/
def tryP1 (i : Nat) (s : Str) : Option (Nat × Option PMatch) :=
  match p1Keyword s with
  | none => none
  | some kn =>
    let s1 := s.drop kn
    let ws1 := s1.takeWhile isWsC
    if ws1.isEmpty then none
    else
      let s2 := s1.drop ws1.length
      let num :=
        match s2 with
        | [] => ([] : Str)
        | c :: _ =>
          if isRomanAnyC c then s2.takeWhile isRomanAnyC
          else if isDigitC c then s2.takeWhile isDigitC
          else if isAlphaC c then [c]
          else []
      if num.isEmpty then none
      else
        let s3 := s2.drop num.length
        match sepProbe s3 (s3.takeWhile isWsC).length with
        | none => none
        | some (hdr, n3) =>
          let sec := trimStr (s.take (kn + ws1.length + num.length))
          let lowSec := toLowerStr sec
          let mk :=
            if containsStr lowSec (str "clause") then MKind.clause
            else if containsStr lowSec (str "article") then MKind.article
            else if containsStr lowSec (str "schedule") then MKind.schedule
            else if containsStr lowSec (str "part") then MKind.part
            else MKind.decimal
          some (kn + ws1.length + num.length + n3, some ⟨sec, trimStr hdr, i, 0, mk⟩)

/-- Pattern 3, `/\n\s*\(([a-z]{1,2})\)\s+([^\n]+)/g`. -/
def tryP3 (i : Nat) (s : Str) : Option (Nat × Option PMatch) :=
  let ws0 := s.takeWhile isWsC
  match s.drop ws0.length with
  | '(' :: r1 =>
    let run := r1.takeWhile isLowerC
    if (run.length == 1 || run.length == 2) && (r1.drop run.length).head? == some ')' then
      match tailHdr false (r1.drop (run.length + 1)) with
      | some (hdr, n) =>
        some (ws0.length + 1 + run.length + 1 + n,
              some ⟨'(' :: (run ++ [')']), trimStr hdr, i, 3, MKind.letter⟩)
      | none => none
    else none
  | _ => none

def romanLower : List Str :=
  [str "i", str "ii", str "iii", str "iv", str "v", str "vi", str "vii",
   str "viii", str "ix", str "x", str "xi", str "xii", str "xiii"]

def romanUpper : List Str :=
  [str "I", str "II", str "III", str "IV", str "V", str "VI", str "VII",
   str "VIII", str "IX", str "X", str "XI", str "XII", str "XIII"]

/-- Patterns 4 and 6: a parenthesized Roman numeral from a fixed alternation
(the alternation with trailing `\)` accepts exactly these contents). -/
def tryParenList (lst : List Str) (lvl : Nat) (mk : MKind) (i : Nat) (s : Str) :
    Option (Nat × Option PMatch) :=
  let ws0 := s.takeWhile isWsC
  match s.drop ws0.length with
  | '(' :: r1 =>
    let inner := r1.takeWhile (· != ')')
    if lst.contains inner && (r1.drop inner.length).head? == some ')' then
      match tailHdr false (r1.drop (inner.length + 1)) with
      | some (hdr, n) =>
        some (ws0.length + 1 + inner.length + 1 + n,
              some ⟨'(' :: (inner ++ [')']), trimStr hdr, i, lvl, mk⟩)
      | none => none
    else none
  | _ => none

def tryP4 : Nat → Str → Option (Nat × Option PMatch) := tryParenList romanLower 4 MKind.roman

def tryP6 : Nat → Str → Option (Nat × Option PMatch) := tryParenList romanUpper 2 MKind.decimal

/-- Pattern 5, `/\n\s*\((\d{1,2})\)\s+([^\n]+)/g` (same tier as letters). -/
def tryP5 (i : Nat) (s : Str) : Option (Nat × Option PMatch) :=
  let ws0 := s.takeWhile isWsC
  match s.drop ws0.length with
  | '(' :: r1 =>
    let run := r1.takeWhile isDigitC
    if (run.length == 1 || run.length == 2) && (r1.drop run.length).head? == some ')' then
      match tailHdr false (r1.drop (run.length + 1)) with
      | some (hdr, n) =>
        some (ws0.length + 1 + run.length + 1 + n,
              some ⟨'(' :: (run ++ [')']), trimStr hdr, i, 3, MKind.letter⟩)
      | none => none
    else none
  | _ => none

/-- The capital-letter allow-list test of pattern 7 (case-insensitive). -/
def p7Keyword (h : Str) : Bool :=
  let low := toLowerStr h
  strStarts (str "corporate") low || strStarts (str "financial") low ||
  strStarts (str "legal") low || strStarts (str "borrower") low ||
  strStarts (str "lender") low || strStarts (str "details") low ||
  strStarts (str "information") low

/-- Pattern 7, `/\n([A-Z])\.\s+([^\n]+)/g`; short headers outside the
allow-list are consumed but not emitted (parser.ts lines 149-153). -/
def tryP7 (i : Nat) (s : Str) : Option (Nat × Option PMatch) :=
  match s with
  | c :: '.' :: r =>
    if isUpperC c then
      match tailHdr false r with
      | some (hdr, n) =>
        let hdrT := trimStr hdr
        let keep := 15 ≤ hdrT.length || p7Keyword hdrT
        some (2 + n, if keep then some ⟨[c], hdrT, i, 2, MKind.decimal⟩ else none)
      | none => none
    else none
  | _ => none

/-- `matchAll` driver: every pattern starts with a literal `\n`, so matches can
only begin at a newline; after a match the search resumes at its end (`skip`
counts positions still covered by the previous match). -/
def scanGo (tryFn : Nat → Str → Option (Nat × Option PMatch)) :
    Nat → Nat → Str → List PMatch
  | _, _, [] => []
  | skip + 1, i, _ :: rest => scanGo tryFn skip (i + 1) rest
  | 0, i, c :: rest =>
    if c == '\n' then
      match tryFn i rest with
      | some (n, some m) => m :: scanGo tryFn n (i + 1) rest
      | some (n, none) => scanGo tryFn n (i + 1) rest
      | none => scanGo tryFn 0 (i + 1) rest
    else scanGo tryFn 0 (i + 1) rest

def scanAll (tryFn : Nat → Str → Option (Nat × Option PMatch)) (s : Str) : List PMatch :=
  scanGo tryFn 0 0 s

/-- All raw matches, collected in the pattern order of parser.ts. -/
def allMatches (s : Str) : List PMatch :=
  scanAll tryP1 s ++ scanAll tryP2 s ++ scanAll tryP3 s ++ scanAll tryP4 s ++
  scanAll tryP5 s ++ scanAll tryP6 s ++ scanAll tryP7 s

/-- parser.ts `ClauseType`. -/
inductive ClauseType where
  | MAC | financial_covenant | representation | default | definition | general
deriving DecidableEq, Repr

/-- parser.ts `Clause` (the TypeScript fields `section` and `type` are rendered
as `sectionLabel` and `ctype`). -/
structure Clause where
  id : Str
  sectionLabel : Str
  text : Str
  ctype : ClauseType
  parentSection : Option Str
deriving DecidableEq, Repr

/-- The own-text keyword rules of `detectClauseType` (parser.ts lines 380-442),
applied to the lowercased `header text` concatenation. -/
def ownTextType (combined : Str) : ClauseType :=
  if containsStr combined (str "material adverse") ||
     containsStr combined (str "mac clause") ||
     containsStr combined (str "material adverse change") ||
     containsStr combined (str "material adverse effect") then
    ClauseType.MAC
  else if containsStr combined (str "financial covenant") ||
          containsStr combined (str "ebitda") ||
          containsStr combined (str "debt to equity") ||
          containsStr combined (str "leverage ratio") ||
          containsStr combined (str "leverage") ||
          containsStr combined (str "interest cover") ||
          containsStr combined (str "interest service") ||
          containsStr combined (str "debt service") ||
          containsStr combined (str "cash flow cover") ||
          containsStr combined (str "financial ratio") ||
          containsStr combined (str "covenant ratio") then
    ClauseType.financial_covenant
  else if containsStr combined (str "represent") ||
          containsStr combined (str "warranty") ||
          containsStr combined (str "warrants that") ||
          (containsStr combined (str "status") &&
           (containsStr combined (str "duly") || containsStr combined (str "validly"))) then
    ClauseType.representation
  else if containsStr combined (str "event of default") ||
          containsStr combined (str "events of default") ||
          containsStr combined (str "default provisions") ||
          containsStr combined (str "non-payment") ||
          containsStr combined (str "cross default") ||
          containsStr combined (str "cross-default") ||
          containsStr combined (str "insolvency") ||
          containsStr combined (str "acceleration") ||
          (containsStr combined (str "misrepresentation") &&
           containsStr combined (str "default")) then
    ClauseType.default
  else if containsStr combined (str "definitions") ||
          containsStr combined (str "defined terms") ||
          containsStr combined (str "interpretation") ||
          containsStr combined (str "means") ||
          containsStr combined (str "shall mean") ||
          containsStr combined (str "is defined as") then
    ClauseType.definition
  else ClauseType.general

/-- parser.ts `detectClauseType(header, text, _section, parentSection)`.  The
fourth argument is the string the call site passes (`parentText ||
parentSection`); JS truthiness makes the empty string behave like `undefined`. -/
def detectClauseType (header text _sectionLabel : Str) (parentT : Option Str) : ClauseType :=
  let combined := toLowerStr (header ++ (' ' :: text))
  match parentT with
  | some p =>
    if p.isEmpty then ownTextType combined
    else
      let pl := toLowerStr p
      if containsStr pl (str "event") && containsStr pl (str "default") then
        ClauseType.default
      else if containsStr pl (str "financial covenant") ||
              (containsStr pl (str "covenant") && !containsStr pl (str "negative")) then
        ClauseType.financial_covenant
      else if containsStr pl (str "representation") || containsStr pl (str "warrant") ||
              containsStr pl (str "warranties") then
        ClauseType.representation
      else if containsStr pl (str "material adverse") then
        ClauseType.MAC
      else ownTextType combined
  | none => ownTextType combined

/-- Stable insertion of a match after all entries with `startIndex` ≤ its own. -/
def insertAfterLE (x : PMatch) : List PMatch → List PMatch
  | [] => [x]
  | y :: ys => if y.startIndex ≤ x.startIndex then y :: insertAfterLE x ys else x :: y :: ys

/-- The stable `matches.sort((a, b) => a.startIndex - b.startIndex)`. -/
def sortByStart (l : List PMatch) : List PMatch := l.foldl (fun acc x => insertAfterLE x acc) []

def natStr (n : Nat) : Str := (Nat.repr n).data

/-- JS `String.prototype.substring` (swaps and clamps its endpoints). -/
def jsSubstring (s : Str) (a b : Nat) : Str := (s.take (max a b)).drop (min a b)

/-- `fullText.substring(firstLineEnd + 1).trim()` when a line break exists in
`fullText`, otherwise the empty string (parser.ts lines 201-204). -/
def afterFirstNl (s : Str) : Str :=
  match s.dropWhile (· != '\n') with
  | [] => []
  | _ :: t => trimStr t

def emptyStack : Nat → Option Str := fun _ => none

/-- `matches[i + 1]?.startIndex || text.length` (parser.ts line 195): JS `||`
treats the numeric value `0` as falsy, so a next-match offset of `0` also
falls back to the document length. -/
def endIndexOf (text : Str) (rest : List PMatch) : Nat :=
  match rest with
  | [] => text.length
  | m2 :: _ => if m2.startIndex == 0 then text.length else m2.startIndex

/-- Clause text assembly of parser.ts lines 198-209: slice to the next match,
strip the header line, and rejoin header and remainder with a blank line. -/
def clauseTextOf (text : Str) (m : PMatch) (endIndex : Nat) : Str :=
  let fullText := trimStr (jsSubstring text m.startIndex endIndex)
  let textWithoutHeader := afterFirstNl fullText
  if !m.header.isEmpty then
    (if !textWithoutHeader.isEmpty then m.header ++ ('\n' :: '\n' :: textWithoutHeader)
     else m.header)
  else textWithoutHeader

/-- `match.level > 0 ? levelStack[match.level - 1] : undefined` after the
stack slot for the clause's own level has been overwritten. -/
def parentSecOf (stack2 : Nat → Option Str) (m : PMatch) : Option Str :=
  if 0 < m.level then stack2 (m.level - 1) else none

/-- `parentText || parentSection` of parser.ts lines 218-219 and 225: the text
of the first already-built clause whose section equals the parent label, or
the label itself when that text is empty/absent. -/
def parentArgOf (acc : List (Clause × PMatch)) (parentSec : Option Str) : Option Str :=
  let parentClause :=
    match parentSec with
    | some ps => (acc.map Prod.fst).find? (fun (c : Clause) => c.sectionLabel == ps)
    | none => none
  let parentText := match parentClause with | some c => c.text | none => []
  if !parentText.isEmpty then some parentText else parentSec

/-- The clause record pushed at parser.ts lines 221-227. -/
def mkClause (i : Nat) (m : PMatch) (clauseText : Str) (parentSec parentArg : Option Str) :
    Clause :=
  ⟨str "clause_" ++ natStr (i + 1), m.sectionLabel, clauseText.take 2000,
   detectClauseType m.header clauseText m.sectionLabel parentArg, parentSec⟩

/-- The clause-building loop of parser.ts lines 192-229, over the sorted match
list; each clause is paired with the match that produced it. -/
def buildGo (text : Str) : Nat → (Nat → Option Str) → List (Clause × PMatch) →
    List PMatch → List (Clause × PMatch)
  | _, _, acc, [] => acc
  | i, stack, acc, m :: rest =>
    let clauseText := clauseTextOf text m (endIndexOf text rest)
    if 10 < clauseText.length then
      let stack2 := fun v => if v = m.level then some m.sectionLabel else stack v
      let parentSec := parentSecOf stack2 m
      buildGo text (i + 1) stack2
        (acc ++ [(mkClause i m clauseText parentSec (parentArgOf acc parentSec), m)]) rest
    else buildGo text (i + 1) stack acc rest

def sortedMatches (s : Str) : List PMatch := sortByStart (allMatches s)

def annotated (s : Str) : List (Clause × PMatch) := buildGo s 0 emptyStack [] (sortedMatches s)

def builtClauses (s : Str) : List Clause := (annotated s).map Prod.fst

/-- The single synthetic clause returned when no pattern matched
(parser.ts lines 166-174). -/
def fallbackClause (text : Str) : Clause :=
  ⟨str "clause_1", str "Full Text", trimStr text, ClauseType.general, none⟩

def clauseKey (c : Clause) : Str × Str := (c.sectionLabel, c.text)

/-- `clause.parentSection === clause.section`. -/
def isSelfRef (c : Clause) : Bool := c.parentSection = some c.sectionLabel

def lookupSeen (seen : List ((Str × Str) × Clause)) (k : Str × Str) : Option Clause :=
  match seen with
  | [] => none
  | (k2, c) :: t => if k2 = k then some c else lookupSeen t k

def setSeen (seen : List ((Str × Str) × Clause)) (k : Str × Str) (c : Clause) :
    List ((Str × Str) × Clause) :=
  match seen with
  | [] => [(k, c)]
  | (k2, c2) :: t => if k2 = k then (k, c) :: t else (k2, c2) :: setSeen t k c

def idxOfC (c : Clause) : List Clause → Nat
  | [] => 0
  | d :: t => if d = c then 0 else idxOfC c t + 1

/-- The deduplication loop of parser.ts lines 233-258: keep the first clause of
each `(section, text)` key, but replace it in place when it is self-referential
and a later duplicate is not. -/
def dedupGo : List Clause → List ((Str × Str) × Clause) → List Clause → List Clause
  | [], _, out => out
  | c :: rest, seen, out =>
    let k := clauseKey c
    match lookupSeen seen k with
    | none => dedupGo rest (setSeen seen k c) (out ++ [c])
    | some ex =>
      if isSelfRef ex && !isSelfRef c then
        let j := idxOfC ex out
        if j < out.length then dedupGo rest (setSeen seen k c) (out.set j c)
        else dedupGo rest seen out
      else dedupGo rest seen out

def dedupClauses (l : List Clause) : List Clause := dedupGo l [] []

/-- parser.ts `extractClausesRegex`. -/
def extractClausesRegex (s : Str) : List Clause :=
  if (allMatches s).isEmpty then [fallbackClause s]
  else dedupClauses (builtClauses s)

/-- parser.ts `extractClauses` (a logging wrapper around the regex pass). -/
def extractClauses (s : Str) : List Clause := extractClausesRegex s

/-! ## Concrete documents used in the claims -/

/-- The worked example of the specification (§8). -/
def docBasic : Str := str "\n1. DEFINITIONS\n\"Borrower\" means the company.\n1.1 Further provisions apply.\n"

/-- Table-of-contents artifact input of the specification (§8). -/
def docToc : Str := str "\n1. DEFINITIONS.......... 5\n"

/-- A decimal heading whose header carries a run of three dashes. -/
def docDashRun : Str := str "\n1. Alpha --- beta gamma\n"

/-- A parent whose header is neutral but whose body mentions "material adverse". -/
def docParentBody : Str := str "\n1. INTRODUCTION\nSome material adverse wording sits here.\n1.1 Plain follow-on text here.\n"

/-- A lowercase-Roman heading (double-matched at levels 3 and 4) followed by a
five-component decimal heading. -/
def docLevelSkip : Str := str "\nFiller intro line text.\n(i) Heading line.\n1.1.1.1.1 Deep clause body text.\n"

/-- Three occurrences of "(x)": the second yields a self-referential clause and
the third an identical-text non-self-referential duplicate, triggering the
deduplicator's in-place replacement. -/
def docOrderFlip : Str := str "\nFiller opening line text.\n(x) Long header text here.\n(x) short\nBody line for the duplicate text block.\n(a) Another long header line.\n(x) short\nBody line for the duplicate text block.\n"

/-- A lowercase-Roman heading with a body line: pattern 3 and pattern 4 fire on
the same span but produce different clause texts. -/
def docSelfRef : Str := str "\nFiller text line one.\n(i) This is the first subparagraph.\nExtra body line.\n"

/-- A minimal structured document with a single decimal clause. -/
def docSingle : Str := str "\n1. Alpha beta gamma here.\n"

/-- 2001 characters with no structural marker. -/
def docLong : Str := List.replicate 2001 'a'

/-- The raw match that produced a given output clause. -/
def matchOf (s : Str) (c : Clause) : Option PMatch :=
  ((annotated s).find? (fun p => p.1 == c)).map Prod.snd

/-- Document start offset of the match that produced a given output clause. -/
def startOffsetOf (s : Str) (c : Clause) : Option Nat :=
  (matchOf s c).map (fun m => m.startIndex)

/-- The clause sequence entering the deduplicator (the fallback clause when no
pattern matched, the built clause list otherwise). -/
def preClauses (s : Str) : List Clause :=
  if (allMatches s).isEmpty then [fallbackClause s] else builtClauses s

/-- All occurrences of a composite key, in order. -/
def occsOf (l : List Clause) (k : Str × Str) : List Clause :=
  l.filter (fun c => decide (clauseKey c = k))

/-- The distinct composite keys of a clause list, in first-occurrence order. -/
def firstKeys : List Clause → List (Str × Str)
  | [] => []
  | c :: t => clauseKey c :: (firstKeys t).filter (fun k => decide (k ≠ clauseKey c))

/-- The representative the deduplicator keeps for a key: the first occurrence,
unless it is self-referential and some later occurrence is not, in which case
the earliest non-self-referential occurrence. -/
def chooseRep (l : List Clause) (k : Str × Str) : Option Clause :=
  match occsOf l k with
  | [] => none
  | h :: t => some (if isSelfRef h then (((h :: t).find? (fun c => !isSelfRef c)).getD h) else h)

/-- The representative among a nonempty occurrence list `h :: t` (the body of
`chooseRep`, named for reasoning). -/
def pickRep (h : Clause) (t : List Clause) : Clause :=
  if isSelfRef h then (((h :: t).find? (fun c => !isSelfRef c)).getD h) else h

/-- C1: on the specification's worked example the engine outputs exactly the
clause ("1", no parent, definition) followed by ("1.1", parent "1", general). -/
theorem c1_two_clause_segmentation :
    (extractClauses docBasic).map (fun c => (c.sectionLabel, c.parentSection, c.ctype)) =
      [(str "1", none, ClauseType.definition),
       (str "1.1", some (str "1"), ClauseType.general)] := by decide

/-- C10: an input on which the final output retains a clause whose
`parentSection` equals its own section (the two matchers firing on the same
span produce different texts, so deduplication cannot repair it). -/
theorem c10_self_reference_in_output :
    (extractClauses docSelfRef).any isSelfRef = true ∧
    (extractClauses docSelfRef).map (fun c => (c.sectionLabel, c.parentSection)) =
      [(str "(i)", none), (str "(i)", some (str "(i)"))] := by decide

/-- C3 counterexample: the empty document has no pattern match and a trimmed
length of 0 ≤ 10, yet the engine still returns the single "Full Text"
fallback clause rather than zero clauses. -/
theorem c3_counterexample_empty_input :
    allMatches [] = [] ∧ (trimStr []).length ≤ 10 ∧
    extractClauses [] = [⟨str "clause_1", str "Full Text", [], ClauseType.general, none⟩] := by
  decide

/-- C3 amended: whenever no pattern matches, the engine returns exactly the
synthetic "Full Text" clause over the trimmed document, regardless of its
length. -/
theorem c3_amended_fallback_always_one_clause (s : Str) (h : allMatches s = []) :
    extractClauses s = [⟨str "clause_1", str "Full Text", trimStr s, ClauseType.general, none⟩] := by
  simp [extractClauses, extractClausesRegex, h, fallbackClause]

theorem c3_amended_fallback_witness :
    extractClauses (str "tiny") =
      [⟨str "clause_1", str "Full Text", str "tiny", ClauseType.general, none⟩] :=
  c3_amended_fallback_always_one_clause (str "tiny") (by decide)

/-- C9 counterexample: on the empty document there are zero raw matches but the
final output has one clause, so the output count exceeds the raw match count. -/
theorem c9_counterexample_fallback_exceeds :
    (allMatches []).length = 0 ∧ (extractClauses []).length = 1 := by decide

lemma length_insertAfterLE (x : PMatch) (l : List PMatch) :
    (insertAfterLE x l).length = l.length + 1 := by
  induction l with
  | nil => rfl
  | cons y ys ih =>
    rw [insertAfterLE]
    split
    · simp [ih]
    · simp

lemma length_sortFold (l : List PMatch) :
    ∀ acc, (l.foldl (fun a x => insertAfterLE x a) acc).length = acc.length + l.length := by
  induction l with
  | nil => intro acc; simp
  | cons x xs ih =>
    intro acc
    simp only [List.foldl_cons]
    rw [ih, length_insertAfterLE]
    simp only [List.length_cons]
    omega

lemma length_sortByStart (l : List PMatch) : (sortByStart l).length = l.length := by
  have := length_sortFold l []
  simpa [sortByStart] using this

lemma length_buildGo (text : Str) :
    ∀ (rest : List PMatch) (i : Nat) (stack : Nat → Option Str) (acc : List (Clause × PMatch)),
      (buildGo text i stack acc rest).length ≤ acc.length + rest.length := by
  intro rest
  induction rest with
  | nil => intro i stack acc; simp [buildGo]
  | cons m rest ih =>
    intro i stack acc
    simp only [buildGo]
    split
    · exact le_trans (ih _ _ _)
        (by simp only [List.length_append, List.length_cons, List.length_nil]; omega)
    · exact le_trans (ih _ _ _) (by simp only [List.length_cons]; omega)

lemma length_dedupGo :
    ∀ (rest : List Clause) (seen : List ((Str × Str) × Clause)) (out : List Clause),
      (dedupGo rest seen out).length ≤ out.length + rest.length := by
  intro rest
  induction rest with
  | nil => intro seen out; simp [dedupGo]
  | cons c rest ih =>
    intro seen out
    simp only [dedupGo]
    rcases h : lookupSeen seen (clauseKey c) with _ | ex <;> simp only [h]
    · exact le_trans (ih _ _)
        (by simp only [List.length_append, List.length_cons, List.length_nil]; omega)
    · split
      · split
        · exact le_trans (ih _ _) (by simp only [List.length_set, List.length_cons]; omega)
        · exact le_trans (ih _ _) (by simp only [List.length_cons]; omega)
      · exact le_trans (ih _ _) (by simp only [List.length_cons]; omega)

/-- C9 amended: when at least one raw pattern match exists, the final output
has at most as many clauses as there are raw matches. -/
theorem c9_amended_monotone_reduction (s : Str) (h : allMatches s ≠ []) :
    (extractClauses s).length ≤ (allMatches s).length := by
  have hne : (allMatches s).isEmpty = false := by
    cases hm : allMatches s with
    | nil => exact absurd hm h
    | cons a l => rfl
  rw [extractClauses, extractClausesRegex, hne]
  simp only [Bool.false_eq_true, if_false]
  calc (dedupClauses (builtClauses s)).length
      ≤ (builtClauses s).length := by
        have := length_dedupGo (builtClauses s) [] []
        simpa [dedupClauses] using this
    _ ≤ (sortedMatches s).length := by
        have := length_buildGo s (sortedMatches s) 0 emptyStack []
        simpa [builtClauses, annotated] using this
    _ = (allMatches s).length := length_sortByStart (allMatches s)

theorem c9_amended_monotone_reduction_witness :
    (extractClauses docBasic).length ≤ (allMatches docBasic).length :=
  c9_amended_monotone_reduction docBasic (by decide)

lemma scanGo_no_newline (tryFn : Nat → Str → Option (Nat × Option PMatch)) :
    ∀ (s : Str) (skip i : Nat), (∀ c ∈ s, ¬c = '\n') → scanGo tryFn skip i s = [] := by
  intro s
  induction s with
  | nil => intro skip i _; cases skip <;> rfl
  | cons c rest ih =>
    intro skip i h
    have hc : (c == '\n') = false := by
      simpa using h c (List.mem_cons_self c rest)
    have hrest : ∀ d ∈ rest, ¬d = '\n' := fun d hd => h d (List.mem_cons_of_mem c hd)
    match skip with
    | skip + 1 => simpa [scanGo] using ih skip (i + 1) hrest
    | 0 => simp [scanGo, hc, ih 0 (i + 1) hrest]

lemma allMatches_no_newline (s : Str) (h : ∀ c ∈ s, ¬c = '\n') : allMatches s = [] := by
  simp [allMatches, scanAll, scanGo_no_newline _ s _ _ h]

lemma dropWhile_no_ws (s : Str) (h : ∀ c ∈ s, isWsC c = false) : s.dropWhile isWsC = s := by
  cases s with
  | nil => rfl
  | cons c rest =>
    rw [List.dropWhile_cons, h c (List.mem_cons_self c rest)]
    simp

lemma trimStr_no_ws (s : Str) (h : ∀ c ∈ s, isWsC c = false) : trimStr s = s := by
  unfold trimStr
  rw [dropWhile_no_ws s h,
      dropWhile_no_ws s.reverse (fun c hc => h c (List.mem_reverse.mp hc)),
      List.reverse_reverse]

/-- Shared: with no raw match, the engine returns exactly the fallback clause. -/
lemma extract_no_matches (s : Str) (h : allMatches s = []) :
    extractClauses s = [⟨str "clause_1", str "Full Text", trimStr s, ClauseType.general, none⟩] := by
  simp [extractClauses, extractClausesRegex, h, fallbackClause]

lemma docLong_def : docLong = List.replicate 2001 'a' := rfl

lemma docLong_no_newline : ∀ c ∈ docLong, ¬c = '\n' := by
  intro c hc
  rw [docLong_def, List.mem_replicate] at hc
  rw [hc.2]
  decide

/-- C2 counterexample: a 2001-character unstructured document yields the
"Full Text" fallback clause with a text of 2001 > 2000 characters. -/
theorem c2_counterexample_fallback_untruncated :
    (extractClauses docLong).map (fun c => (c.sectionLabel, c.text.length)) =
      [(str "Full Text", 2001)] := by
  rw [extract_no_matches docLong (allMatches_no_newline docLong docLong_no_newline)]
  have htrim : trimStr docLong = docLong := by
    refine trimStr_no_ws docLong ?_
    intro c hc
    rw [docLong_def, List.mem_replicate] at hc
    rw [hc.2]
    decide
  rw [List.map_cons, List.map_nil, htrim, docLong_def, List.length_replicate]

lemma mem_dedupGo :
    ∀ (rest : List Clause) (seen : List ((Str × Str) × Clause)) (out : List Clause) (x : Clause),
      x ∈ dedupGo rest seen out → x ∈ out ∨ x ∈ rest := by
  intro rest
  induction rest with
  | nil => intro seen out x hx; exact Or.inl (by simpa [dedupGo] using hx)
  | cons c rest ih =>
    intro seen out x hx
    simp only [dedupGo] at hx
    rcases h : lookupSeen seen (clauseKey c) with _ | ex <;> simp only [h] at hx
    · rcases ih _ _ x hx with h1 | h1
      · rcases List.mem_append.mp h1 with h2 | h2
        · exact Or.inl h2
        · exact Or.inr (by simp at h2; simp [h2])
      · exact Or.inr (List.mem_cons_of_mem c h1)
    · split at hx
      · split at hx
        · rcases ih _ _ x hx with h1 | h1
          · rcases List.mem_or_eq_of_mem_set h1 with h2 | h2
            · exact Or.inl h2
            · exact Or.inr (by simp [h2])
          · exact Or.inr (List.mem_cons_of_mem c h1)
        · rcases ih _ _ x hx with h1 | h1
          · exact Or.inl h1
          · exact Or.inr (List.mem_cons_of_mem c h1)
      · rcases ih _ _ x hx with h1 | h1
        · exact Or.inl h1
        · exact Or.inr (List.mem_cons_of_mem c h1)

lemma mem_buildGo_text (text : Str) :
    ∀ (rest : List PMatch) (i : Nat) (stack : Nat → Option Str)
      (acc : List (Clause × PMatch)) (p : Clause × PMatch),
      p ∈ buildGo text i stack acc rest → p ∈ acc ∨ p.1.text.length ≤ 2000 := by
  intro rest
  induction rest with
  | nil => intro i stack acc p hp; exact Or.inl (by simpa [buildGo] using hp)
  | cons m rest ih =>
    intro i stack acc p hp
    simp only [buildGo] at hp
    split at hp
    · rcases ih _ _ _ p hp with h1 | h1
      · rcases List.mem_append.mp h1 with h2 | h2
        · exact Or.inl h2
        · refine Or.inr ?_
          simp only [List.mem_singleton] at h2
          subst h2
          simp only [mkClause, List.length_take]
          omega
      · exact Or.inr h1
    · rcases ih _ _ _ p hp with h1 | h1
      · exact Or.inl h1
      · exact Or.inr h1

/-- C2 amended: every clause produced from at least one raw match has a text of
at most 2000 characters (only the synthetic fallback clause is untruncated). -/
theorem c2_amended_truncation (s : Str) (c : Clause) (h : allMatches s ≠ [])
    (hc : c ∈ extractClauses s) : c.text.length ≤ 2000 := by
  have hne : (allMatches s).isEmpty = false := by
    cases hm : allMatches s with
    | nil => exact absurd hm h
    | cons a l => rfl
  rw [extractClauses, extractClausesRegex, hne] at hc
  simp only [Bool.false_eq_true, if_false] at hc
  have h1 : c ∈ builtClauses s := by
    rcases mem_dedupGo _ _ _ c hc with h2 | h2
    · simp at h2
    · exact h2
  simp only [builtClauses, List.mem_map] at h1
  rcases h1 with ⟨p, hp, hpc⟩
  rcases mem_buildGo_text s _ _ _ _ p hp with h3 | h3
  · simp at h3
  · rw [← hpc]; exact h3

theorem c2_amended_truncation_witness :
    (⟨str "clause_1", str "1", str "Alpha beta gamma here.", ClauseType.general, none⟩ :
      Clause).text.length ≤ 2000 :=
  c2_amended_truncation docSingle
    ⟨str "clause_1", str "1", str "Alpha beta gamma here.", ClauseType.general, none⟩
    (by decide) (by decide)

/-- C4 counterexample: on `docParentBody` the parent clause's header is
"INTRODUCTION" (matching no inheritance rule) and the child's own text matches
no keyword, yet the pipeline types the child `MAC` — the inheritance trigger is
the parent clause's full stored text, whose body mentions "material adverse",
not the parent's header alone (which would give `general`, as the second
conjunct shows). -/
theorem c4_counterexample_parent_body_triggers :
    (extractClauses docParentBody).map (fun c => (c.sectionLabel, c.parentSection, c.ctype)) =
      [(str "1", none, ClauseType.MAC), (str "1.1", some (str "1"), ClauseType.MAC)] ∧
    detectClauseType (str "Plain follow-on text here.") (str "Plain follow-on text here.")
      (str "1.1") (some (str "INTRODUCTION")) = ClauseType.general := by decide

/-- C4 amended: the classifier applies the four parent-context inheritance
rules, in the stated priority and before any own-text rule, to whatever
non-empty parent string it is given — which at the call site is the full
stored text of the first earlier retained clause whose section matches, not
the parent's header alone. -/
theorem c4_amended_inheritance_rules (hdr txt sec p : Str) (hp : p ≠ []) :
    ((containsStr (toLowerStr p) (str "event") &&
        containsStr (toLowerStr p) (str "default")) = true →
      detectClauseType hdr txt sec (some p) = ClauseType.default) ∧
    ((containsStr (toLowerStr p) (str "event") &&
        containsStr (toLowerStr p) (str "default")) = false →
     (containsStr (toLowerStr p) (str "financial covenant") ||
        (containsStr (toLowerStr p) (str "covenant") &&
         !containsStr (toLowerStr p) (str "negative"))) = true →
      detectClauseType hdr txt sec (some p) = ClauseType.financial_covenant) ∧
    ((containsStr (toLowerStr p) (str "event") &&
        containsStr (toLowerStr p) (str "default")) = false →
     (containsStr (toLowerStr p) (str "financial covenant") ||
        (containsStr (toLowerStr p) (str "covenant") &&
         !containsStr (toLowerStr p) (str "negative"))) = false →
     (containsStr (toLowerStr p) (str "representation") ||
        containsStr (toLowerStr p) (str "warrant") ||
        containsStr (toLowerStr p) (str "warranties")) = true →
      detectClauseType hdr txt sec (some p) = ClauseType.representation) ∧
    ((containsStr (toLowerStr p) (str "event") &&
        containsStr (toLowerStr p) (str "default")) = false →
     (containsStr (toLowerStr p) (str "financial covenant") ||
        (containsStr (toLowerStr p) (str "covenant") &&
         !containsStr (toLowerStr p) (str "negative"))) = false →
     (containsStr (toLowerStr p) (str "representation") ||
        containsStr (toLowerStr p) (str "warrant") ||
        containsStr (toLowerStr p) (str "warranties")) = false →
     containsStr (toLowerStr p) (str "material adverse") = true →
      detectClauseType hdr txt sec (some p) = ClauseType.MAC) := by
  have hpe : p.isEmpty = false := by
    cases p with
    | nil => exact absurd rfl hp
    | cons a l => rfl
  refine ⟨?_, ?_, ?_, ?_⟩
  · intro h1
    simp [detectClauseType, hpe, h1]
  · intro h1 h2
    simp [detectClauseType, hpe, h1, h2]
  · intro h1 h2 h3
    simp [detectClauseType, hpe, h1, h2, h3]
  · intro h1 h2 h3 h4
    simp [detectClauseType, hpe, h1, h2, h3, h4]

theorem c4_amended_inheritance_rules_witness :
    detectClauseType (str "x") (str "y") (str "1")
      (some (str "Events of Default")) = ClauseType.default :=
  (c4_amended_inheritance_rules (str "x") (str "y") (str "1")
    (str "Events of Default") (by decide)).1 (by decide)

/-- C5 counterexample: the header "Alpha --- beta gamma" contains a run of
three dash leader characters, yet the decimal matcher keeps it and the engine
emits the clause — only dot runs of 3 (or mixed runs of 5) are rejected. -/
theorem c5_counterexample_dash_run_kept :
    hasRun (fun c => c == '.' || c == '-') 3 (str "Alpha --- beta gamma") = true ∧
    (extractClauses docDashRun).map (fun c => (c.sectionLabel, c.text)) =
      [(str "1", str "Alpha --- beta gamma")] := by decide

lemma scanGo_sound (P : PMatch → Prop) (tryFn : Nat → Str → Option (Nat × Option PMatch))
    (hf : ∀ i s n m, tryFn i s = some (n, some m) → P m) :
    ∀ (s : Str) (skip i : Nat), ∀ m ∈ scanGo tryFn skip i s, P m := by
  intro s
  induction s with
  | nil => intro skip i m hm; cases skip <;> simp [scanGo] at hm
  | cons c rest ih =>
    intro skip i m hm
    match skip with
    | skip + 1 => exact ih skip (i + 1) m (by simpa [scanGo] using hm)
    | 0 =>
      simp only [scanGo] at hm
      split at hm
      · rcases ht : tryFn i rest with _ | ⟨n, om⟩ <;> simp only [ht] at hm
        · exact ih 0 (i + 1) m hm
        · rcases om with _ | m2
          · exact ih n (i + 1) m hm
          · rcases List.mem_cons.mp hm with h1 | h1
            · rw [h1]; exact hf i rest n m2 ht
            · exact ih n (i + 1) m h1
      · exact ih 0 (i + 1) m hm

lemma tryP2_no_toc (i : Nat) (s : Str) (n : Nat) (m : PMatch)
    (h : tryP2 i s = some (n, some m)) : tocTest m.header = false := by
  simp only [tryP2] at h
  split at h
  · exact absurd h (by simp)
  · split at h
    · exact absurd h (by simp)
    · split at h
      · simp at h
      · rename_i hcond
        simp only [Option.some.injEq, Prod.mk.injEq] at h
        rw [← h.2]
        simpa using hcond

/-- C5 amended: every candidate the decimal matcher emits has a header free of
the TOC-artifact pattern (a dot run of 3, a mixed dot/dash run of 5, or two
dots followed by optional whitespace and trailing digits); in particular the
specification's TOC-artifact input yields no decimal clause — its only output
is the "Full Text" fallback. -/
theorem c5_amended_toc_rules :
    (∀ (s : Str) (m : PMatch), m ∈ scanAll tryP2 s → tocTest m.header = false) ∧
    (extractClauses docToc).map (fun c => c.sectionLabel) = [str "Full Text"] := by
  constructor
  · intro s m hm
    exact scanGo_sound (fun m => tocTest m.header = false) tryP2 tryP2_no_toc s 0 0 m hm
  · decide

theorem c5_amended_toc_rules_witness :
    tocTest (str "DEFINITIONS") = false :=
  c5_amended_toc_rules.1 docBasic ⟨str "1", str "DEFINITIONS", 0, 1, MKind.decimal⟩ (by decide)

/-- C7 counterexample: on `docLevelSkip` the final output is a level-3 clause
"(i)" followed by a level-5 clause whose `parentSection` is "(i)" — the only
earlier output clause with that section sits two levels above, because the
level-4 duplicate that set the stack slot was removed by deduplication. -/
theorem c7_counterexample_level_gap :
    (extractClauses docLevelSkip).map
        (fun c => (c.sectionLabel, c.parentSection, (matchOf docLevelSkip c).map (fun m => m.level))) =
      [(str "(i)", none, some 3),
       (str "1.1.1.1.1", some (str "(i)"), some 5)] := by decide

lemma buildGo_parent (text : Str) :
    ∀ (rest : List PMatch) (i : Nat) (stack : Nat → Option Str) (acc : List (Clause × PMatch)),
      (∀ v sec, stack v = some sec → ∃ p ∈ acc, p.1.sectionLabel = sec ∧ p.2.level = v) →
      (∀ (j : Nat) (c : Clause) (m : PMatch) (ps : Str), acc[j]? = some (c, m) →
        c.parentSection = some ps →
        ∃ p ∈ acc.take j, p.1.sectionLabel = ps ∧ p.2.level + 1 = m.level) →
      ∀ (j : Nat) (c : Clause) (m : PMatch) (ps : Str),
        (buildGo text i stack acc rest)[j]? = some (c, m) →
        c.parentSection = some ps →
        ∃ p ∈ (buildGo text i stack acc rest).take j,
          p.1.sectionLabel = ps ∧ p.2.level + 1 = m.level := by
  intro rest
  induction rest with
  | nil =>
    intro i stack acc hstack hacc j c m ps hj hps
    simp only [buildGo] at hj ⊢
    exact hacc j c m ps hj hps
  | cons mt rest ih =>
    intro i stack acc hstack hacc j c m ps hj hps
    simp only [buildGo] at hj ⊢
    by_cases hlen : 10 < (clauseTextOf text mt (endIndexOf text rest)).length
    · rw [if_pos hlen] at hj ⊢
      refine ih (i + 1) _ _ ?_ ?_ j c m ps hj hps
      · intro v sec hv
        by_cases hvl : v = mt.level
        · subst hvl
          rw [if_pos rfl] at hv
          have hsec := Option.some.inj hv
          subst hsec
          exact ⟨(mkClause i mt (clauseTextOf text mt (endIndexOf text rest))
              (parentSecOf (fun v => if v = mt.level then some mt.sectionLabel else stack v) mt)
              (parentArgOf acc (parentSecOf
                (fun v => if v = mt.level then some mt.sectionLabel else stack v) mt)), mt),
            List.mem_append_right _ (List.mem_singleton.mpr rfl), rfl, rfl⟩
        · rw [if_neg hvl] at hv
          rcases hstack v sec hv with ⟨p, hp, h1, h2⟩
          exact ⟨p, List.mem_append_left _ hp, h1, h2⟩
      · intro j2 c2 m2 ps2 hj2 hps2
        rcases lt_trichotomy j2 acc.length with hlt | heq | hgt
        · rw [List.getElem?_append_left hlt] at hj2
          rcases hacc j2 c2 m2 ps2 hj2 hps2 with ⟨p, hp, h1, h2⟩
          refine ⟨p, ?_, h1, h2⟩
          rw [List.take_append_of_le_length (le_of_lt hlt)]
          exact hp
        · subst heq
          rw [List.getElem?_concat_length] at hj2
          injection hj2 with hpair
          injection hpair with hc2 hm2
          subst hc2
          subst hm2
          simp only [mkClause] at hps2
          rw [parentSecOf] at hps2
          by_cases hlvl : 0 < mt.level
          · rw [if_pos hlvl] at hps2
            have hne : ¬(mt.level - 1 = mt.level) := by omega
            rw [if_neg hne] at hps2
            rcases hstack (mt.level - 1) ps2 hps2 with ⟨p, hp, h1, h2⟩
            refine ⟨p, ?_, h1, by omega⟩
            rw [List.take_append_of_le_length (le_refl acc.length), List.take_length]
            exact hp
          · rw [if_neg hlvl] at hps2
            exact absurd hps2 (by simp)
        · rw [List.getElem?_append_right (by omega)] at hj2
          rw [List.getElem?_eq_none (by simp; omega)] at hj2
          exact absurd hj2 (by simp)
    · rw [if_neg hlen] at hj ⊢
      exact ih (i + 1) stack acc hstack hacc j c m ps hj hps

/-- C7 amended: in the pre-deduplication clause sequence, every clause with a
parent is preceded by a clause whose section equals that parent label and
whose hierarchy level is exactly one less; deduplication can remove that
predecessor, as the counterexample shows. -/
theorem c7_amended_pre_dedup_hierarchy (s : Str) (j : Nat) (c : Clause) (m : PMatch) (ps : Str)
    (hj : (annotated s)[j]? = some (c, m)) (hps : c.parentSection = some ps) :
    ∃ p ∈ (annotated s).take j, p.1.sectionLabel = ps ∧ p.2.level + 1 = m.level := by
  refine buildGo_parent s (sortedMatches s) 0 emptyStack [] ?_ ?_ j c m ps hj hps
  · intro v sec hv
    simp [emptyStack] at hv
  · intro j2 c2 m2 ps2 hj2
    simp at hj2

theorem c7_amended_pre_dedup_hierarchy_witness :
    ∃ p ∈ (annotated docLevelSkip).take 2,
      p.1.sectionLabel = str "(i)" ∧
      p.2.level + 1 =
        (⟨str "1.1.1.1.1", str "Deep clause body text.", 42, 5, MKind.decimal⟩ : PMatch).level :=
  c7_amended_pre_dedup_hierarchy docLevelSkip 2
    ⟨str "clause_3", str "1.1.1.1.1", str "Deep clause body text.", ClauseType.general,
      some (str "(i)")⟩
    ⟨str "1.1.1.1.1", str "Deep clause body text.", 42, 5, MKind.decimal⟩
    (str "(i)") (by decide) (by decide)

set_option maxRecDepth 20000 in
/-- C8 counterexample: on `docOrderFlip` the deduplicator replaces a
self-referential clause in place with a later duplicate, so the final output
carries match start offsets 26, 133, 103 — not non-decreasing. -/
theorem c8_counterexample_order_flip :
    (extractClauses docOrderFlip).map (startOffsetOf docOrderFlip) =
      [some 26, some 133, some 103] ∧
    ¬ List.Chain' (fun a b => a ≤ b)
        (((extractClauses docOrderFlip).map (startOffsetOf docOrderFlip)).map
          (fun o => o.getD 0)) := by
  have h1 : (extractClauses docOrderFlip).map (startOffsetOf docOrderFlip) =
      [some 26, some 133, some 103] := by decide
  refine ⟨h1, ?_⟩
  intro hch
  rw [h1] at hch
  simp [List.chain'_cons] at hch

lemma mem_insertAfterLE (x : PMatch) :
    ∀ (l : List PMatch) (z : PMatch), z ∈ insertAfterLE x l → z = x ∨ z ∈ l := by
  intro l
  induction l with
  | nil => intro z hz; exact Or.inl (by simpa [insertAfterLE] using hz)
  | cons y ys ih =>
    intro z hz
    rw [insertAfterLE] at hz
    split at hz
    · rcases List.mem_cons.mp hz with h | h
      · exact Or.inr (by simp [h])
      · rcases ih z h with h2 | h2
        · exact Or.inl h2
        · exact Or.inr (List.mem_cons_of_mem y h2)
    · rcases List.mem_cons.mp hz with h | h
      · exact Or.inl h
      · exact Or.inr h

lemma pairwise_insertAfterLE (x : PMatch) :
    ∀ (l : List PMatch),
      List.Pairwise (fun a b => a.startIndex ≤ b.startIndex) l →
      List.Pairwise (fun a b => a.startIndex ≤ b.startIndex) (insertAfterLE x l) := by
  intro l
  induction l with
  | nil => intro _; simp [insertAfterLE]
  | cons y ys ih =>
    intro hp
    rw [List.pairwise_cons] at hp
    rcases hp with ⟨hy, hys⟩
    rw [insertAfterLE]
    split
    · rename_i hle
      rw [List.pairwise_cons]
      refine ⟨?_, ih hys⟩
      intro z hz
      rcases mem_insertAfterLE x ys z hz with h | h
      · rw [h]; exact hle
      · exact hy z h
    · rename_i hnle
      rw [List.pairwise_cons]
      refine ⟨?_, List.pairwise_cons.mpr ⟨hy, hys⟩⟩
      intro z hz
      rcases List.mem_cons.mp hz with h | h
      · rw [h]; omega
      · have := hy z h; omega

lemma sortFold_pairwise :
    ∀ (l acc : List PMatch),
      List.Pairwise (fun a b => a.startIndex ≤ b.startIndex) acc →
      List.Pairwise (fun a b => a.startIndex ≤ b.startIndex)
        (l.foldl (fun a x => insertAfterLE x a) acc) := by
  intro l
  induction l with
  | nil => intro acc h; simpa using h
  | cons x xs ih =>
    intro acc h
    simp only [List.foldl_cons]
    exact ih _ (pairwise_insertAfterLE x acc h)

lemma sortByStart_pairwise (l : List PMatch) :
    List.Pairwise (fun a b => a.startIndex ≤ b.startIndex) (sortByStart l) :=
  sortFold_pairwise l [] (by simp)

lemma buildGo_snd_sublist (text : Str) :
    ∀ (rest : List PMatch) (i : Nat) (stack : Nat → Option Str)
      (acc : List (Clause × PMatch)),
      ((buildGo text i stack acc rest).map Prod.snd).Sublist (acc.map Prod.snd ++ rest) := by
  intro rest
  induction rest with
  | nil =>
    intro i stack acc
    simp only [buildGo, List.append_nil]
    exact List.Sublist.refl (acc.map Prod.snd)
  | cons mt rest ih =>
    intro i stack acc
    simp only [buildGo]
    split
    · refine (ih _ _ _).trans ?_
      simp only [List.map_append, List.map_cons, List.map_nil, List.append_assoc,
        List.nil_append, List.cons_append]
      exact List.Sublist.refl _
    · exact (ih _ _ _).trans ((List.sublist_cons_self mt rest).append_left _)

/-- C8 amended: the pre-deduplication clause sequence is in non-decreasing
order of the start offsets of the matches that produced it; the deduplicator's
in-place replacement step can break this, as the counterexample shows. -/
theorem c8_amended_pre_dedup_order (s : Str) :
    List.Pairwise (fun a b => a ≤ b) ((annotated s).map (fun p => p.2.startIndex)) := by
  have h1 := sortByStart_pairwise (allMatches s)
  have h2 := buildGo_snd_sublist s (sortedMatches s) 0 emptyStack []
  simp only [List.map_nil, List.nil_append] at h2
  have h3 := List.Pairwise.sublist h2 h1
  rw [List.pairwise_map] at h3
  rw [List.pairwise_map]
  exact h3

lemma filterMap_congr_mem {α β : Type} (l : List α) (f g : α → Option β)
    (h : ∀ x ∈ l, f x = g x) : l.filterMap f = l.filterMap g := by
  induction l with
  | nil => rfl
  | cons a t ih =>
    rw [List.filterMap_cons, List.filterMap_cons, h a (List.mem_cons_self a t),
        ih (fun x hx => h x (List.mem_cons_of_mem a hx))]

lemma occsOf_append_single (p : List Clause) (c : Clause) (k : Str × Str) :
    occsOf (p ++ [c]) k = occsOf p k ++ (if clauseKey c = k then [c] else []) := by
  simp only [occsOf, List.filter_append]
  congr 1
  by_cases h : clauseKey c = k
  · simp [h]
  · simp [h]

lemma chooseRep_append_ne (p : List Clause) (c : Clause) (k : Str × Str)
    (h : clauseKey c ≠ k) : chooseRep (p ++ [c]) k = chooseRep p k := by
  rw [chooseRep, chooseRep, occsOf_append_single, if_neg h, List.append_nil]

lemma chooseRep_none_iff (p : List Clause) (k : Str × Str) :
    chooseRep p k = none ↔ occsOf p k = [] := by
  rw [chooseRep]
  rcases h : occsOf p k with _ | ⟨h0, t0⟩ <;> simp

lemma chooseRep_key (p : List Clause) (k : Str × Str) (e : Clause)
    (h : chooseRep p k = some e) : clauseKey e = k ∧ e ∈ occsOf p k := by
  have hmem : e ∈ occsOf p k := by
    rw [chooseRep] at h
    rcases hocc : occsOf p k with _ | ⟨h0, t0⟩ <;> rw [hocc] at h
    · exact absurd h (by simp)
    · have he := Option.some.inj h
      by_cases hs : isSelfRef h0
      · rw [if_pos hs] at he
        rcases hf : (h0 :: t0).find? (fun c => !isSelfRef c) with _ | e2 <;> rw [hf] at he
        · simp at he
          rw [← he]
          exact List.mem_cons_self h0 t0
        · simp at he
          rw [← he]
          exact List.mem_of_find?_eq_some hf
      · rw [if_neg hs] at he
        rw [← he]
        exact List.mem_cons_self h0 t0
  refine ⟨?_, hmem⟩
  have hin := hmem
  simp only [occsOf, List.mem_filter, decide_eq_true_eq] at hin
  exact hin.2

lemma mem_firstKeys (p : List Clause) (k : Str × Str) :
    k ∈ firstKeys p ↔ ∃ c ∈ p, clauseKey c = k := by
  induction p with
  | nil => simp [firstKeys]
  | cons d t ih =>
    simp only [firstKeys, List.mem_cons, List.mem_filter, ih, decide_eq_true_eq]
    constructor
    · rintro (h | ⟨⟨c, hc, hk⟩, _⟩)
      · exact ⟨d, Or.inl rfl, h.symm⟩
      · exact ⟨c, Or.inr hc, hk⟩
    · rintro ⟨c, hc | hc, hk⟩
      · subst hc
        exact Or.inl hk.symm
      · by_cases hkd : k = clauseKey d
        · exact Or.inl hkd
        · exact Or.inr ⟨⟨c, hc, hk⟩, hkd⟩

lemma firstKeys_nodup (p : List Clause) : (firstKeys p).Nodup := by
  induction p with
  | nil => simp [firstKeys]
  | cons d t ih =>
    rw [firstKeys]
    refine List.Nodup.cons ?_ (List.Nodup.filter _ ih)
    intro hmem
    have := List.of_mem_filter hmem
    simp at this

lemma firstKeys_append_single (p : List Clause) (c : Clause) :
    firstKeys (p ++ [c]) =
      if clauseKey c ∈ firstKeys p then firstKeys p else firstKeys p ++ [clauseKey c] := by
  induction p with
  | nil => simp [firstKeys]
  | cons d t ih =>
    have hstep : firstKeys ((d :: t) ++ [c]) =
        clauseKey d :: (firstKeys (t ++ [c])).filter (fun k => decide (k ≠ clauseKey d)) := rfl
    rw [hstep, ih]
    by_cases hct : clauseKey c ∈ firstKeys t
    · rw [if_pos hct]
      have hmem : clauseKey c ∈ firstKeys (d :: t) := by
        by_cases hcd : clauseKey c = clauseKey d
        · simp [firstKeys, hcd]
        · simp only [firstKeys, List.mem_cons, List.mem_filter, decide_eq_true_eq]
          exact Or.inr ⟨hct, hcd⟩
      rw [if_pos hmem]
      rfl
    · rw [if_neg hct, List.filter_append]
      by_cases hcd : clauseKey c = clauseKey d
      · have h1 : List.filter (fun k => decide (k ≠ clauseKey d)) [clauseKey c] = [] := by
          simp [hcd]
        rw [h1, List.append_nil]
        have hmem : clauseKey c ∈ firstKeys (d :: t) := by simp [firstKeys, hcd]
        rw [if_pos hmem]
        rfl
      · have h1 : List.filter (fun k => decide (k ≠ clauseKey d)) [clauseKey c] =
            [clauseKey c] := by simp [hcd]
        rw [h1]
        have hmem : clauseKey c ∉ firstKeys (d :: t) := by
          simp only [firstKeys, List.mem_cons, List.mem_filter, decide_eq_true_eq]
          rintro (h | ⟨h, _⟩)
          · exact hcd h
          · exact hct h
        rw [if_neg hmem]
        rfl

lemma lookup_setSeen (seen : List ((Str × Str) × Clause)) (k k2 : Str × Str) (c : Clause) :
    lookupSeen (setSeen seen k c) k2 = if k2 = k then some c else lookupSeen seen k2 := by
  induction seen with
  | nil =>
    simp only [setSeen, lookupSeen]
    by_cases h : k = k2
    · rw [if_pos h, if_pos h.symm]
    · rw [if_neg h, if_neg (fun h2 => h h2.symm)]
  | cons kc t ih =>
    rcases kc with ⟨k0, c0⟩
    simp only [setSeen]
    by_cases h0 : k0 = k
    · rw [if_pos h0]
      simp only [lookupSeen]
      by_cases h2 : k = k2
      · rw [if_pos h2, if_pos h2.symm]
      · rw [if_neg h2, if_neg (fun h => h2 h.symm)]
        rw [if_neg (by rw [h0]; exact h2)]
    · rw [if_neg h0]
      simp only [lookupSeen, ih]
      by_cases h2 : k0 = k2
      · rw [if_pos h2, if_neg (fun h => h0 (h2.trans h)), if_pos h2]
      · rw [if_neg h2, if_neg h2]

lemma idxOfC_lt_length_of_mem (c : Clause) (l : List Clause) (h : c ∈ l) :
    idxOfC c l < l.length := by
  induction l with
  | nil => simp at h
  | cons d t ih =>
    rw [idxOfC]
    by_cases hdc : d = c
    · rw [if_pos hdc]
      simp
    · rw [if_neg hdc]
      rcases List.mem_cons.mp h with h1 | h1
      · exact absurd h1.symm hdc
      · have := ih h1
        simp only [List.length_cons]
        omega

lemma chooseRep_singleton_new (p : List Clause) (c : Clause)
    (h : occsOf p (clauseKey c) = []) : chooseRep (p ++ [c]) (clauseKey c) = some c := by
  rw [chooseRep, occsOf_append_single, h, if_pos rfl, List.nil_append]
  by_cases hs : isSelfRef c
  · simp [hs, List.find?]
  · simp [hs]

lemma chooseRep_eq_pick (p : List Clause) (k : Str × Str) (h0 : Clause) (t0 : List Clause)
    (hocc : occsOf p k = h0 :: t0) : chooseRep p k = some (pickRep h0 t0) := by
  rw [chooseRep, hocc]
  rfl

lemma chooseRep_append_eq_pick (p : List Clause) (c : Clause) (k : Str × Str)
    (h0 : Clause) (t0 : List Clause) (hk : clauseKey c = k) (hocc : occsOf p k = h0 :: t0) :
    chooseRep (p ++ [c]) k = some (pickRep h0 (t0 ++ [c])) := by
  rw [chooseRep, occsOf_append_single, hocc, if_pos hk]
  rfl

lemma pickRep_append (h0 c : Clause) (t0 : List Clause) :
    pickRep h0 (t0 ++ [c]) =
      if isSelfRef (pickRep h0 t0) && !isSelfRef c then c else pickRep h0 t0 := by
  by_cases hs : isSelfRef h0
  · have hfind : (h0 :: (t0 ++ [c])).find? (fun x => !isSelfRef x) =
        ((h0 :: t0).find? (fun x => !isSelfRef x)).or
          (([c] : List Clause).find? (fun x => !isSelfRef x)) := by
      rw [show h0 :: (t0 ++ [c]) = (h0 :: t0) ++ [c] from rfl, List.find?_append]
    rcases hf : (h0 :: t0).find? (fun x => !isSelfRef x) with _ | e2
    · have h1 : pickRep h0 t0 = h0 := by
        rw [pickRep, if_pos hs, hf]
        rfl
      by_cases hc : isSelfRef c
      · have hnone : ([c] : List Clause).find? (fun x => !isSelfRef x) = none := by
          simp [List.find?, hc]
        have h2 : pickRep h0 (t0 ++ [c]) = h0 := by
          rw [pickRep, if_pos hs, hfind, hf, hnone]
          rfl
        rw [h1, h2, hs, hc]
        simp
      · have hc2 : isSelfRef c = false := by simpa using hc
        have hsome : ([c] : List Clause).find? (fun x => !isSelfRef x) = some c := by
          simp [List.find?, hc2]
        have h2 : pickRep h0 (t0 ++ [c]) = c := by
          rw [pickRep, if_pos hs, hfind, hf, hsome]
          rfl
        rw [h1, h2, hs, hc2]
        simp
    · have he2 : isSelfRef e2 = false := by
        have := List.find?_some hf
        simpa using this
      have h1 : pickRep h0 t0 = e2 := by
        rw [pickRep, if_pos hs, hf]
        rfl
      have h2 : pickRep h0 (t0 ++ [c]) = e2 := by
        rw [pickRep, if_pos hs, hfind, hf]
        rfl
      rw [h1, h2, he2]
      simp
  · have hs2 : isSelfRef h0 = false := by simpa using hs
    have h1 : pickRep h0 t0 = h0 := by rw [pickRep, if_neg hs]
    have h2 : pickRep h0 (t0 ++ [c]) = h0 := by rw [pickRep, if_neg hs]
    rw [h1, h2, hs2]
    simp

lemma filterMap_set (ks : List (Str × Str)) (f g : (Str × Str) → Option Clause)
    (k : Str × Str) (ex c : Clause) :
    ks.Nodup → k ∈ ks → f k = some ex → g k = some c →
    (∀ k2, k2 ≠ k → g k2 = f k2) →
    (∀ k2 ∈ ks, ∀ e, f k2 = some e → clauseKey e = k2) →
    (ks.filterMap f).set (idxOfC ex (ks.filterMap f)) c = ks.filterMap g := by
  induction ks with
  | nil =>
    intro _ hk
    simp at hk
  | cons k0 ks ih =>
    intro hnd hk hf hg hgf hkey
    by_cases hk0 : k0 = k
    · subst hk0
      simp only [List.filterMap_cons, hf, hg]
      rw [idxOfC, if_pos rfl, List.set_cons_zero]
      have hnotin : k0 ∉ ks := (List.nodup_cons.mp hnd).1
      rw [filterMap_congr_mem ks f g
        (fun k2 hk2 => (hgf k2 (fun he => hnotin (he ▸ hk2))).symm)]
    · have hkmem : k ∈ ks := by
        rcases List.mem_cons.mp hk with h | h
        · exact absurd h.symm hk0
        · exact h
      have hg0 : g k0 = f k0 := hgf k0 hk0
      rcases hf0 : f k0 with _ | e0
      · simp only [List.filterMap_cons, hf0, hg0]
        exact ih (List.nodup_cons.mp hnd).2 hkmem hf hg hgf
          (fun k2 h2 => hkey k2 (List.mem_cons_of_mem k0 h2))
      · simp only [List.filterMap_cons, hf0, hg0]
        have hex_key : clauseKey ex = k := hkey k hk ex hf
        have he0_key : clauseKey e0 = k0 := hkey k0 (List.mem_cons_self k0 ks) e0 hf0
        have hne : e0 ≠ ex := fun he => hk0 (by rw [← he0_key, he, hex_key])
        rw [idxOfC, if_neg hne, List.set_cons_succ]
        rw [ih (List.nodup_cons.mp hnd).2 hkmem hf hg hgf
          (fun k2 h2 => hkey k2 (List.mem_cons_of_mem k0 h2))]

lemma dedupGo_spec :
    ∀ (rest p : List Clause) (seen : List ((Str × Str) × Clause)) (out : List Clause),
      (∀ k, lookupSeen seen k = chooseRep p k) →
      out = (firstKeys p).filterMap (chooseRep p) →
      dedupGo rest seen out = (firstKeys (p ++ rest)).filterMap (chooseRep (p ++ rest)) := by
  intro rest
  induction rest with
  | nil =>
    intro p seen out hseen hout
    simp only [dedupGo, List.append_nil]
    exact hout
  | cons c rest ih =>
    intro p seen out hseen hout
    simp only [dedupGo]
    rw [List.append_cons p c rest]
    rcases hlk : lookupSeen seen (clauseKey c) with _ | ex <;> simp only [hlk]
    · have hrep : chooseRep p (clauseKey c) = none := (hseen (clauseKey c)).symm.trans hlk
      have hocc : occsOf p (clauseKey c) = [] := (chooseRep_none_iff p _).mp hrep
      have hnotin : clauseKey c ∉ firstKeys p := by
        rw [mem_firstKeys]
        rintro ⟨d, hd, hkd⟩
        have hdm : d ∈ occsOf p (clauseKey c) := by
          simp only [occsOf, List.mem_filter, decide_eq_true_eq]
          exact ⟨hd, hkd⟩
        rw [hocc] at hdm
        simp at hdm
      refine ih (p ++ [c]) _ _ ?_ ?_
      · intro k2
        rw [lookup_setSeen]
        by_cases h2 : k2 = clauseKey c
        · rw [if_pos h2, h2, chooseRep_singleton_new p c hocc]
        · rw [if_neg h2, hseen k2, chooseRep_append_ne p c k2 (fun he => h2 he.symm)]
      · rw [firstKeys_append_single, if_neg hnotin, List.filterMap_append, hout]
        congr 1
        · exact filterMap_congr_mem _ _ _ (fun k2 hk2 =>
            (chooseRep_append_ne p c k2 (fun he => hnotin (he ▸ hk2))).symm)
        · simp [List.filterMap_cons, chooseRep_singleton_new p c hocc]
    · have hrep : chooseRep p (clauseKey c) = some ex := (hseen (clauseKey c)).symm.trans hlk
      rcases hocc : occsOf p (clauseKey c) with _ | ⟨h0, t0⟩
      · rw [(chooseRep_none_iff p _).mpr hocc] at hrep
        exact absurd hrep (by simp)
      · have hex : ex = pickRep h0 t0 := by
          rw [chooseRep_eq_pick p _ h0 t0 hocc] at hrep
          exact (Option.some.inj hrep).symm
        have hrep2 : chooseRep (p ++ [c]) (clauseKey c) = some (pickRep h0 (t0 ++ [c])) :=
          chooseRep_append_eq_pick p c _ h0 t0 rfl hocc
        have hpick := pickRep_append h0 c t0
        have hkin : clauseKey c ∈ firstKeys p := by
          rw [mem_firstKeys]
          have hh0 : h0 ∈ occsOf p (clauseKey c) := by
            rw [hocc]
            exact List.mem_cons_self _ _
          simp only [occsOf, List.mem_filter, decide_eq_true_eq] at hh0
          exact ⟨h0, hh0.1, hh0.2⟩
        by_cases hcond : (isSelfRef ex && !isSelfRef c) = true
        · rw [if_pos hcond]
          have hexout : ex ∈ out := by
            rw [hout]
            exact List.mem_filterMap.mpr ⟨clauseKey c, hkin, hrep⟩
          rw [if_pos (idxOfC_lt_length_of_mem ex out hexout)]
          have hrepc : chooseRep (p ++ [c]) (clauseKey c) = some c := by
            rw [hrep2, hpick, ← hex, if_pos hcond]
          refine ih (p ++ [c]) _ _ ?_ ?_
          · intro k2
            rw [lookup_setSeen]
            by_cases h2 : k2 = clauseKey c
            · rw [if_pos h2, h2, hrepc]
            · rw [if_neg h2, hseen k2, chooseRep_append_ne p c k2 (fun he => h2 he.symm)]
          · rw [firstKeys_append_single, if_pos hkin, hout]
            exact filterMap_set (firstKeys p) (chooseRep p) (chooseRep (p ++ [c]))
              (clauseKey c) ex c (firstKeys_nodup p) hkin hrep hrepc
              (fun k2 h2 => chooseRep_append_ne p c k2 (fun he => h2 he.symm))
              (fun k2 hk2 e he => (chooseRep_key p k2 e he).1)
        · rw [if_neg hcond]
          have hrepex : chooseRep (p ++ [c]) (clauseKey c) = some ex := by
            rw [hrep2, hpick, ← hex, if_neg hcond]
          refine ih (p ++ [c]) _ _ ?_ ?_
          · intro k2
            by_cases h2 : k2 = clauseKey c
            · rw [h2, hlk, hrepex]
            · rw [hseen k2, chooseRep_append_ne p c k2 (fun he => h2 he.symm)]
          · rw [firstKeys_append_single, if_pos hkin, hout]
            refine filterMap_congr_mem _ _ _ ?_
            intro k2 hk2
            by_cases h2 : k2 = clauseKey c
            · rw [h2, hrep, hrepex]
            · exact (chooseRep_append_ne p c k2 (fun he => h2 he.symm)).symm

/-- C6: the deduplicated output keeps, for each composite `(section, text)`
key in first-occurrence order and at the first occurrence's position, exactly
one clause: the first occurrence, unless it is self-referential and a later
occurrence is not, in which case the earliest such later occurrence. -/
theorem c6_dedup_characterization (s : Str) :
    extractClauses s = (firstKeys (preClauses s)).filterMap (chooseRep (preClauses s)) := by
  rw [extractClauses, extractClausesRegex, preClauses]
  by_cases hm : (allMatches s).isEmpty
  · rw [if_pos hm, if_pos hm]
    have h1 : firstKeys [fallbackClause s] = [clauseKey (fallbackClause s)] := by
      simp [firstKeys]
    rw [h1]
    have h2 : chooseRep [fallbackClause s] (clauseKey (fallbackClause s)) =
        some (fallbackClause s) := by
      have h0 : occsOf [] (clauseKey (fallbackClause s)) = [] := rfl
      have := chooseRep_singleton_new [] (fallbackClause s) h0
      simpa using this
    simp [List.filterMap_cons, h2]
  · rw [if_neg hm, if_neg hm]
    have h := dedupGo_spec (builtClauses s) [] [] [] (fun k => rfl) (by simp [firstKeys])
    simpa [dedupClauses] using h
